import Mathlib

/-!
Verification of the `makeover` build orchestrator (`src/main.py`).

The embedding models text as `List Char`.  Python `str` operations used by
the source (`strip`, `split`, `replace`, `startswith`, `endswith`, `lower`,
membership) are translated as executable Lean functions on `List Char`.
The filesystem (`os.path.exists`, `os.path.getmtime`) and the shell
(`subprocess.run`) are opaque environments, modelled as function-valued
records threaded explicitly through the executor.
-/

set_option autoImplicit false

namespace Makeover

/-- Text is a list of characters (Python `str`). -/
abbrev Str := List Char

/-- Whitespace characters recognised by Python `str.strip` / `str.split`
(space, tab, newline, carriage return, vertical tab, form feed). -/
def isWsChar (c : Char) : Bool :=
  c == ' ' || c == '\t' || c == '\n' || c == '\r' ||
  c == Char.ofNat 11 || c == Char.ofNat 12

/-- Python `str.strip`: drop leading and trailing whitespace. -/
def strip (s : Str) : Str :=
  ((s.dropWhile isWsChar).reverse.dropWhile isWsChar).reverse

/-- Python `s.split(c, 1)`: split at the first occurrence of `c`.
Only used on strings known to contain `c`. -/
def splitFirst (c : Char) : Str → Str × Str
  | [] => ([], [])
  | x :: xs =>
    if x = c then ([], xs)
    else
      let p := splitFirst c xs
      (x :: p.1, p.2)

/-- Python `str.split()` with no argument: tokenize on whitespace runs,
dropping empty tokens. -/
def splitWs : Str → List Str
  | [] => []
  | c :: s =>
    if isWsChar c then splitWs s
    else
      match splitWs s, s with
      | _, [] => [[c]]
      | ts, c2 :: _ =>
        if isWsChar c2 then [c] :: ts
        else
          match ts with
          | [] => [[c]]
          | w :: ws => (c :: w) :: ws

/-- ASCII lowercasing of one character (enough for the `[group:` check). -/
def lowerCh (c : Char) : Char :=
  if 'A' ≤ c ∧ c ≤ 'Z' then Char.ofNat (c.toNat + 32) else c

/-- Python `" ".join(l)`. -/
def joinSpace : List Str → Str
  | [] => []
  | [x] => x
  | x :: xs => x ++ ' ' :: joinSpace xs

/-- Dictionary lookup on an association list with unique keys
(Python `d[k]` / `d.get(k)`). -/
def lookupKey {α : Type} : List (Str × α) → Str → Option α
  | [], _ => none
  | (k, v) :: rest, key => if key = k then some v else lookupKey rest key

/-- Dictionary write `d[k] = v`: update in place if the key is present
(keeping its position, as Python dicts do), else append. -/
def setKey {α : Type} : List (Str × α) → Str → α → List (Str × α)
  | [], key, v => [(key, v)]
  | (k, v') :: rest, key, v =>
    if k = key then (k, v) :: rest else (k, v') :: setKey rest key v

/-- Left brace character (written via its code point). -/
def lbrace : Char := Char.ofNat 123

/-- Right brace character (written via its code point). -/
def rbrace : Char := Char.ofNat 125

/-- One target record (`self.targets[name]` dictionary in the source):
dependencies, commands, doc string and display group. -/
structure Target where
  deps : List Str
  commands : List Str
  doc : Str
  group : Str
  deriving DecidableEq, Repr

/-- The parsed build model: variable table, target table and the first
target encountered (`self.variables`, `self.targets`, `self.first_target`).
The variable table is named `vars` because `variables` is reserved in Lean. -/
structure BuildSystem where
  vars : List (Str × Str)
  targets : List (Str × Target)
  firstTarget : Option Str
  deriving DecidableEq, Repr

/-- Error kinds raised as `BuildError` by the source, one constructor per
distinct message shape. -/
inductive BuildError where
  /-- `Line N: Syntax error.` -/
  | synErr (line : Nat)
  /-- `Line N: Command found outside of target block.` -/
  | orphanCmd (line : Nat)
  /-- `Circular dependency detected involving NAME` -/
  | circularDependency (name : Str)
  /-- `No rule to make target 'NAME' and file not found.` -/
  | noRuleToMake (name : Str)
  /-- `Command failed: CMD` -/
  | commandFailed (cmd : Str)
  deriving DecidableEq, Repr

/-- The filesystem as observed through `os.path.exists` and
`os.path.getmtime` (modification times as naturals). -/
structure FS where
  fexists : Str → Bool
  mtime : Str → Nat

/-- The shell: `subprocess.run(cmd, shell=True)` returns an exit status and
may change the filesystem. -/
structure Env where
  run : Str → FS → Nat × FS

/-! ## Variable expansion (`BuildSystem.expand_vars`, lines 107-113) -/

/-- Worker for `replaceAll` with explicit fuel.  Each step consumes at
least one character of the subject, so fuel `s.length` runs the scan to
completion; `replaceAll` below always supplies exactly that. -/
def replaceAllG (pat rep : Str) : Nat → Str → Str
  | 0, s => s
  | _ + 1, [] => []
  | fuel + 1, c :: s =>
    if pat.isPrefixOf (c :: s) then rep ++ replaceAllG pat rep fuel ((c :: s).drop pat.length)
    else c :: replaceAllG pat rep fuel s

/-- Python `text.replace(pat, rep)`: left-to-right, non-overlapping
replacement of every occurrence. -/
def replaceAll (pat rep s : Str) : Str :=
  replaceAllG pat rep s.length s

/-- The token `$name`. -/
def dollarPat (name : Str) : Str := '$' :: name

/-- The token `${name}`. -/
def bracePat (name : Str) : Str := '$' :: lbrace :: (name ++ [rbrace])

/-- `BuildSystem.expand_vars`: for each variable in table order, replace
`$key` and then `${key}` by its value. -/
def expand_vars (vars : List (Str × Str)) (text : Str) : Str :=
  vars.foldl (fun t kv => replaceAll (bracePat kv.1) kv.2 (replaceAll (dollarPat kv.1) kv.2 t)) text

/-! ## The parser (`BuildSystem.parse`, lines 21-105)

The buildfile is modelled as the list of its lines (without trailing
newlines; `strip` removes any residual line-end whitespace exactly as the
source's `line.strip()` does). -/

/-- Mutable parser state of `parse`: the model under construction plus
`current_target`, `current_group` and `pending_doc`. -/
structure PState where
  vars : List (Str × Str)
  targets : List (Str × Target)
  firstTarget : Option Str
  currentTarget : Option Str
  currentGroup : Str
  pendingDoc : List Str
  deriving DecidableEq, Repr

/-- Initial parser state. -/
def initPS : PState :=
  { vars := [], targets := [], firstTarget := none
    currentTarget := none, currentGroup := "General".toList, pendingDoc := [] }

/-- Python truthiness of `current_target` (`None` and the empty string are
falsy). -/
def pyTruthy : Option Str → Bool
  | none => false
  | some s => !s.isEmpty

/-- Append one command to the named target's command list
(`self.targets[current_target]['commands'].append(stripped)`). -/
def appendCmd : List (Str × Target) → Str → Str → List (Str × Target)
  | [], _, _ => []
  | (k, t) :: rest, name, cmd =>
    if k = name then (k, { t with commands := t.commands ++ [cmd] }) :: rest
    else (k, t) :: appendCmd rest name cmd

/-- The group-header test:
`stripped.lower().startswith('[group:') and stripped.endswith(']')`. -/
def isGroupLine (s : Str) : Bool :=
  "[group:".toList.isPrefixOf (s.map lowerCh) && s.getLast? == some ']'

/-- The indentation test on the raw line:
`line.startswith(' ') or line.startswith('\t')`. -/
def isIndented (line : Str) : Bool :=
  line.head? == some ' ' || line.head? == some '\t'

/-- Process one buildfile line, mirroring the branch order of the source:
group header, blank, comment, indented command, variable assignment,
target definition, else syntax error. -/
def parseLine (st : PState) (n : Nat) (line : Str) : Except BuildError PState :=
  let stripped := strip line
  if isGroupLine stripped then
    .ok { st with currentGroup := strip ((stripped.drop 7).dropLast),
                  currentTarget := none, pendingDoc := [] }
  else if stripped.isEmpty then
    .ok (if pyTruthy st.currentTarget then st else { st with pendingDoc := [] })
  else if stripped.head? == some '#' then
    .ok (if pyTruthy st.currentTarget then st
         else { st with pendingDoc := st.pendingDoc ++ [strip (stripped.drop 1)] })
  else if isIndented line then
    if pyTruthy st.currentTarget then
      .ok { st with targets := appendCmd st.targets (st.currentTarget.getD []) stripped,
                    pendingDoc := [] }
    else .error (.orphanCmd n)
  else if stripped.contains '=' && !stripped.contains ':' then
    let p := splitFirst '=' stripped
    .ok { st with vars := setKey st.vars (strip p.1) (strip p.2),
                  currentTarget := none, pendingDoc := [] }
  else if stripped.contains ':' then
    let p := splitFirst ':' stripped
    let tname := strip p.1
    let deps := splitWs (strip p.2)
    .ok { st with
          targets := setKey st.targets tname
            ⟨deps, [], joinSpace st.pendingDoc, st.currentGroup⟩,
          firstTarget := (match st.firstTarget with | none => some tname | some f => some f),
          currentTarget := some tname, pendingDoc := [] }
  else .error (.synErr n)

/-- Process the lines from line number `n` on, threading the state. -/
def parseLines (st : PState) (n : Nat) : List Str → Except BuildError PState
  | [] => .ok st
  | l :: rest =>
    match parseLine st n l with
    | .error e => .error e
    | .ok st' => parseLines st' (n + 1) rest

/-- `BuildSystem.parse` on a buildfile given as its list of lines:
either a complete model or the first error (no partial model escapes). -/
def parse (lines : List Str) : Except BuildError BuildSystem :=
  match parseLines initPS 1 lines with
  | .error e => .error e
  | .ok st => .ok ⟨st.vars, st.targets, st.firstTarget⟩

/-! ## Staleness (`BuildSystem.needs_rebuild`, lines 115-146) -/

/-- The trailing per-dependency check of the loop body:
`if os.path.exists(dep): if dep_mtime > target_mtime: return True`. -/
def mtimeCheck (fs : FS) (tm : Nat) (dep : Str) (cont : Bool) : Bool :=
  if fs.fexists dep then (if tm < fs.mtime dep then true else cont) else cont

/-- The dependency loop of `needs_rebuild`, with `tm` the target's mtime. -/
def rebuildLoop (bs : BuildSystem) (fs : FS) (tm : Nat) : List Str → Bool
  | [] => false
  | dep :: rest =>
    if fs.fexists dep then mtimeCheck fs tm dep (rebuildLoop bs fs tm rest)
    else
      if (lookupKey bs.targets dep).isSome then
        mtimeCheck fs tm dep (rebuildLoop bs fs tm rest)
      else true

/-- `BuildSystem.needs_rebuild(target, deps)`. -/
def needs_rebuild (bs : BuildSystem) (fs : FS) (target : Str) (deps : List Str) : Bool :=
  if fs.fexists target then rebuildLoop bs fs (fs.mtime target) deps else true

/-! ## The executor (`BuildSystem.build`, lines 148-185)

The recursion is realised with a fuel argument decremented at each
recursive descent into a dependency.  Every descent happens at an
unvisited known target name, so the recursion depth of the source is at
most the number of targets plus one; the top-level wrapper `build`
supplies that much fuel, hence the fuel-exhaustion branch (which returns
an empty successful result) is never reached from `build`.  Theorems
below are proved for every fuel value, so none relies on that branch. -/

/-- Outcome of a build invocation: final filesystem, the expanded shell
commands executed (in execution order), and the error that aborted the
run, if any. -/
structure BResult where
  fs : FS
  log : List Str
  err : Option BuildError

/-- Execute a target's commands in order (lines 177-183): expand each,
run it, stop at the first non-zero exit status with `commandFailed`
carrying the expanded command text. -/
def runCommands (env : Env) (vars : List (Str × Str)) (fs : FS) : List Str → BResult
  | [] => ⟨fs, [], none⟩
  | cmd :: rest =>
    let exp := expand_vars vars cmd
    let res := env.run exp fs
    if res.1 = 0 then
      let r := runCommands env vars res.2 rest
      ⟨r.fs, exp :: r.log, r.err⟩
    else ⟨res.2, [exp], some (.commandFailed exp)⟩

/-- The dependency loop of `build` (lines 166-167): build each dependency
in order with the given builder, stopping at the first error. -/
def buildDeps (bld : Str → List Str → FS → BResult) : List Str → List Str → FS → BResult
  | [], _, fs => ⟨fs, [], none⟩
  | d :: rest, visited, fs =>
    let r := bld d visited fs
    match r.err with
    | some _ => r
    | none =>
      let r2 := buildDeps bld rest visited r.fs
      ⟨r2.fs, r.log ++ r2.log, r2.err⟩

/-- One build invocation `build(target_name, visited)` with fuel:
cycle check, plain-file fallback for unknown names, recursive dependency
builds (each receiving the current visited set, never the callee's
additions), staleness check, then command execution or skip. -/
def buildF (env : Env) (bs : BuildSystem) : Nat → Str → List Str → FS → BResult
  | 0, _, _, fs => ⟨fs, [], none⟩
  | gas + 1, name, visited, fs =>
    if name ∈ visited then ⟨fs, [], some (.circularDependency name)⟩
    else
      match lookupKey bs.targets name with
      | none =>
        if fs.fexists name then ⟨fs, [], none⟩
        else ⟨fs, [], some (.noRuleToMake name)⟩
      | some info =>
        let r := buildDeps (buildF env bs gas) info.deps (name :: visited) fs
        match r.err with
        | some _ => r
        | none =>
          if needs_rebuild bs r.fs name info.deps then
            let rc := runCommands env bs.vars r.fs info.commands
            ⟨rc.fs, r.log ++ rc.log, rc.err⟩
          else ⟨r.fs, r.log, none⟩

/-- A top-level `build(target_name)` call (`visited = set()`), with
sufficient fuel for the deepest possible recursion. -/
def build (env : Env) (bs : BuildSystem) (name : Str) (fs : FS) : BResult :=
  buildF env bs (bs.targets.length + 1) name [] fs

/-- The dependency edge relation of the model: `a` is a known target one
of whose dependencies is `b`. -/
def depEdge (bs : BuildSystem) (a b : Str) : Prop :=
  ∃ info, lookupKey bs.targets a = some info ∧ b ∈ info.deps

/-! ## Helper lemmas about replacement -/

/-- Literal text helper for concrete inputs. -/
def lit (s : String) : Str := s.toList

theorem replaceAllG_nil (pat rep : Str) : ∀ fuel, replaceAllG pat rep fuel [] = []
  | 0 => rfl
  | _ + 1 => rfl

/-- A pattern that occurs nowhere in the subject is never replaced,
regardless of fuel. -/
theorem replaceAllG_no_occurrence (pat rep : Str) :
    ∀ (fuel : Nat) (s : Str), ¬ pat <:+: s → replaceAllG pat rep fuel s = s := by
  intro fuel
  induction fuel with
  | zero => intro s _; rfl
  | succ fuel ih =>
    intro s hs
    match s with
    | [] => rfl
    | c :: s' =>
      have hpre : pat.isPrefixOf (c :: s') = false := by
        cases hp : pat.isPrefixOf (c :: s')
        · rfl
        · exact absurd (List.IsPrefix.isInfix (List.isPrefixOf_iff_prefix.mp hp)) hs
      simp only [replaceAllG, hpre, Bool.false_eq_true, if_false]
      have : ¬ pat <:+: s' := fun h => hs ( List.infix_cons h)
      rw [ih s' this]

/-- Unresolved text is left verbatim. -/
theorem replaceAll_no_occurrence (pat rep s : Str) (h : ¬ pat <:+: s) :
    replaceAll pat rep s = s :=
  replaceAllG_no_occurrence pat rep s.length s h

/-- A subject equal to the pattern is replaced by the replacement text
verbatim: the replacement itself is not re-scanned, even if the pattern
occurs inside it. -/
theorem replaceAll_self (pat rep : Str) (h : pat ≠ []) :
    replaceAll pat rep pat = rep := by
  match pat, h with
  | p :: ps, _ =>
    have hpre : (p :: ps).isPrefixOf (p :: ps) = true :=
      List.isPrefixOf_iff_prefix.mpr (List.prefix_refl _)
    simp only [replaceAll, List.length_cons, replaceAllG, hpre, if_true]
    rw [List.drop_succ_cons, List.drop_length, replaceAllG_nil, List.append_nil]

/-- A text containing no token of any table variable is returned verbatim
by expansion. -/
theorem expand_vars_of_no_tokens :
    ∀ (vars : List (Str × Str)) (t : Str),
      (∀ kv ∈ vars, ¬ dollarPat kv.1 <:+: t ∧ ¬ bracePat kv.1 <:+: t) →
      expand_vars vars t = t := by
  intro vars
  induction vars with
  | nil => intro t _; rfl
  | cons kv rest ih =>
    intro t h
    have h1 := h kv (List.mem_cons_self kv rest)
    simp only [expand_vars, List.foldl_cons]
    rw [replaceAll_no_occurrence _ _ _ h1.1, replaceAll_no_occurrence _ _ _ h1.2]
    exact ih t (fun kv' hkv' => h kv' (List.mem_cons_of_mem kv hkv'))

/-! ## Claims C1 and C8: variable expansion -/

/-- C1 counterexample: with the table `A=$B`, `B=x` (in parse order) and
input `$A`, the claim predicts output `$B` — the `$B` token inside
variable `A`'s value must not be replaced — but the code substitutes it in
a later pass of the loop, yielding `x`. -/
theorem claim1_counterexample :
    expand_vars [(lit "A", lit "$B"), (lit "B", lit "x")] (lit "$A") = lit "x" ∧
      lit "x" ≠ lit "$B" := by decide

/-- C1 (amended): a single replacement step never re-scans its own output:
for a one-variable table `(k, v)` whose value does not contain the
`${k}` form of the token, expanding the text `$k` yields `v` verbatim,
even when `v` contains `$k` itself.  (Tokens inside a substituted value
ARE replaced by steps performed later — the `${k}` form of the same
variable, or any variable later in table order — as the counterexample
shows.) -/
theorem claim1_amended (k v : Str) (h : ¬ bracePat k <:+: v) :
    expand_vars [(k, v)] (dollarPat k) = v := by
  simp only [expand_vars, List.foldl_cons, List.foldl_nil]
  rw [replaceAll_self (dollarPat k) v (by simp [dollarPat]),
    replaceAll_no_occurrence _ _ _ h]

/-- C1 witness: variable `A` with value `$A!` — the `$A` inside the value
survives expansion of the text `$A` verbatim. -/
theorem claim1_witness :
    expand_vars [(lit "A", lit "$A!")] (lit "$A") = lit "$A!" :=
  claim1_amended (lit "A") (lit "$A!") (by decide)

/-- C8 counterexample: with variables `C=x` and `CC=gcc` (in that order),
the input `$CC` expands to `xC`: the occurrence of `$CC` is neither
replaced by `gcc` (the claim's "every occurrence... replaced") nor — had
one read `$CC` as naming the undefined variable token consumed by `$C` —
left verbatim. -/
theorem claim8_counterexample :
    expand_vars [(lit "C", lit "x"), (lit "CC", lit "gcc")] (lit "$CC") = lit "xC" ∧
      lit "xC" ≠ lit "gcc" ∧ lit "xC" ≠ lit "$CC" := by decide

/-- C8 (amended): expansion replaces occurrences of `$name` and `${name}`
step by step in table order; a text containing no occurrence of either
token form of any defined variable is returned verbatim with no error,
and the concrete examples hold: with `CC=gcc`, `$CC -o out in.c` expands
to `gcc -o out in.c` and `${CC}x` expands to `gccx`.  (When one key's
token overlaps another's — e.g. `C` a prefix of `CC` — an occurrence may
instead be rewritten by the other variable's step, as the counterexample
shows.) -/
theorem claim8_amended :
    (∀ (vars : List (Str × Str)) (t : Str),
        (∀ kv ∈ vars, ¬ dollarPat kv.1 <:+: t ∧ ¬ bracePat kv.1 <:+: t) →
        expand_vars vars t = t) ∧
    expand_vars [(lit "CC", lit "gcc")] (lit "$CC -o out in.c") = lit "gcc -o out in.c" ∧
    expand_vars [(lit "CC", lit "gcc")] (lit "$\x7bCC\x7dx") = lit "gccx" := by
  refine ⟨expand_vars_of_no_tokens, by decide, by decide⟩

/-- C8 witness: the verbatim clause applied to a concrete table and text
containing no defined token. -/
theorem claim8_witness :
    expand_vars [(lit "CC", lit "gcc")] (lit "echo done") = lit "echo done" :=
  claim8_amended.1 [(lit "CC", lit "gcc")] (lit "echo done") (by decide)

/-! ## Claim C2: staleness characterization -/

theorem rebuildLoop_eq_true_iff (bs : BuildSystem) (fs : FS) (tm : Nat) :
    ∀ deps : List Str,
      rebuildLoop bs fs tm deps = true ↔
        ∃ d ∈ deps, (fs.fexists d = true ∧ tm < fs.mtime d) ∨
          (fs.fexists d = false ∧ lookupKey bs.targets d = none) := by
  intro deps
  induction deps with
  | nil => simp [rebuildLoop]
  | cons d rest ih =>
    simp only [rebuildLoop, mtimeCheck]
    cases hex : fs.fexists d with
    | true =>
      simp only [if_true, hex]
      by_cases hlt : tm < fs.mtime d
      · simp [hlt, hex]
      · simp [hlt, hex, ih]
    | false =>
      simp only [Bool.false_eq_true, if_false, hex]
      cases hlk : (lookupKey bs.targets d).isSome with
      | true =>
        have : lookupKey bs.targets d ≠ none := by
          intro hn; rw [hn] at hlk; exact Bool.false_ne_true hlk
        simp [hlk, hex, ih, this]
      | false =>
        have : lookupKey bs.targets d = none := Option.not_isSome_iff_eq_none.mp (by simp [hlk])
        simp [hlk, hex, this]

/-- C2: `needs_rebuild(target, deps)` returns true exactly when the target
file does not exist, or some dependency is an existing file strictly newer
than the target, or some dependency is neither an existing file nor a
known target.  In particular a known target absent as a file is not by
itself a trigger, and equal modification times do not trigger. -/
theorem claim2_needs_rebuild_iff (bs : BuildSystem) (fs : FS) (target : Str) (deps : List Str) :
    needs_rebuild bs fs target deps = true ↔
      fs.fexists target = false ∨
        (∃ d ∈ deps, fs.fexists d = true ∧ fs.mtime target < fs.mtime d) ∨
        (∃ d ∈ deps, fs.fexists d = false ∧ lookupKey bs.targets d = none) := by
  simp only [needs_rebuild]
  cases hex : fs.fexists target with
  | true =>
    simp only [if_true, Bool.true_eq_false, false_or]
    rw [rebuildLoop_eq_true_iff]
    constructor
    · rintro ⟨d, hd, h | h⟩
      · exact Or.inl ⟨d, hd, h⟩
      · exact Or.inr ⟨d, hd, h⟩
    · rintro (⟨d, hd, h⟩ | ⟨d, hd, h⟩)
      · exact ⟨d, hd, Or.inl h⟩
      · exact ⟨d, hd, Or.inr h⟩
  | false => simp

/-! ## Claim C7: unknown names fall back to plain files -/

/-- C7: a top-level `build` of a name that is no known target succeeds
silently — no command run, no error — when a file of that name exists,
and fails with `noRuleToMake` naming it otherwise. -/
theorem claim7_unknown_name (env : Env) (bs : BuildSystem) (fs : FS) (name : Str)
    (h : lookupKey bs.targets name = none) :
    (fs.fexists name = true → build env bs name fs = ⟨fs, [], none⟩) ∧
      (fs.fexists name = false →
        build env bs name fs = ⟨fs, [], some (.noRuleToMake name)⟩) := by
  constructor <;> intro hex <;> simp [build, buildF, h, hex]

/-- C7 witness: in an empty model, building the missing name `out`
fails with `noRuleToMake`. -/
theorem claim7_witness :
    build ⟨fun _ f => (0, f)⟩ ⟨[], [], none⟩ (lit "out") ⟨fun _ => false, fun _ => 0⟩ =
      ⟨⟨fun _ => false, fun _ => 0⟩, [], some (.noRuleToMake (lit "out"))⟩ :=
  (claim7_unknown_name ⟨fun _ f => (0, f)⟩ ⟨[], [], none⟩ ⟨fun _ => false, fun _ => 0⟩
    (lit "out") rfl).2 rfl

/-! ## Claim C3: cycles -/

/-- A filesystem with no files. -/
def fsEmpty : FS := ⟨fun _ => false, fun _ => 0⟩

/-- A shell in which every command succeeds and changes nothing. -/
def envId : Env := ⟨fun _ f => (0, f)⟩

/-- Model of the buildfile `a: c b` / `c:` (+ command `touch c`) /
`b: b` — the goal `a` reaches the self-cycle at `b`, but only after its
sibling dependency `c` has been built. -/
def bsSibling : BuildSystem :=
  ⟨[], [(lit "a", ⟨[lit "c", lit "b"], [], [], lit "General"⟩),
        (lit "c", ⟨[], [lit "touch c"], [], lit "General"⟩),
        (lit "b", ⟨[lit "b"], [], [], lit "General"⟩)], some (lit "a")⟩

/-- Model of the buildfile `a: b` / `b: a`. -/
def bsTwoCycle : BuildSystem :=
  ⟨[], [(lit "a", ⟨[lit "b"], [], [], lit "General"⟩),
        (lit "b", ⟨[lit "a"], [], [], lit "General"⟩)], some (lit "a")⟩

/-- C3 counterexample: in `bsSibling` with no files on disk, `build("a")`
does fail with `circularDependency` on a cycle target, but the sibling
subtree's command `touch c` has already executed before that failure —
refuting "no shell command is executed before that failure". -/
theorem claim3_counterexample :
    (build envId bsSibling (lit "a") fsEmpty).err =
        some (.circularDependency (lit "b")) ∧
      (build envId bsSibling (lit "a") fsEmpty).log = [lit "touch c"] ∧
      [lit "touch c"] ≠ ([] : List Str) := by decide

/-- C3 (amended): reaching a target already on the active path fails the
build with `circularDependency` naming it; for the pure two-target cycle
`a: b`, `b: a`, `build("a")` fails with `circularDependency` and executes
no command — but in general, commands of sibling dependency subtrees
completed before the cycle is reached may already have executed, and an
earlier error of another kind may preempt the cycle detection. -/
theorem claim3_amended (env : Env) (fs : FS) :
    (build env bsTwoCycle (lit "a") fs).err = some (.circularDependency (lit "a")) ∧
      (build env bsTwoCycle (lit "a") fs).log = [] :=
  ⟨rfl, rfl⟩

/-! ## Claim C4: acyclic models never report a circular dependency -/

theorem lookupKey_mem {α : Type} :
    ∀ (l : List (Str × α)) (k : Str) (v : α), lookupKey l k = some v → (k, v) ∈ l := by
  intro l
  induction l with
  | nil => intro k v h; simp [lookupKey] at h
  | cons p rest ih =>
    intro k v h
    simp only [lookupKey] at h
    by_cases hk : k = p.1
    · rw [if_pos hk] at h
      subst hk
      cases h
      exact List.mem_cons_self _ _
    · rw [if_neg hk] at h
      exact List.mem_cons_of_mem _ (ih k v h)

/-- Command execution reports at worst a `commandFailed`, never a
`circularDependency`. -/
theorem runCommands_err_not_circular (env : Env) (vars : List (Str × Str)) :
    ∀ (cmds : List Str) (fs : FS) (x : Str),
      (runCommands env vars fs cmds).err ≠ some (.circularDependency x) := by
  intro cmds
  induction cmds with
  | nil => intro fs x; simp [runCommands]
  | cons cmd rest ih =>
    intro fs x
    simp only [runCommands]
    by_cases h0 : (env.run (expand_vars vars cmd) fs).1 = 0
    · simp only [h0, if_true]
      exact ih _ x
    · simp [h0]

/-- Invariant of the executor's traversal: when every visited name has a
dependency path to the current name, an acyclic model can never trip the
cycle check, at any fuel. -/
theorem buildF_not_circular (env : Env) (bs : BuildSystem)
    (acyc : ∀ n, ¬ Relation.TransGen (depEdge bs) n n) :
    ∀ (gas : Nat) (name : Str) (visited : List Str) (fs : FS),
      (∀ v ∈ visited, Relation.TransGen (depEdge bs) v name) →
      ∀ x, (buildF env bs gas name visited fs).err ≠ some (.circularDependency x) := by
  intro gas
  induction gas with
  | zero => intro name visited fs _ x; simp [buildF]
  | succ gas ih =>
    intro name visited fs hinv x
    have hmem : name ∉ visited := fun hm => acyc name (hinv name hm)
    simp only [buildF]
    rw [if_neg hmem]
    cases hlk : lookupKey bs.targets name with
    | none => cases hfe : fs.fexists name <;> simp
    | some info =>
      dsimp only
      have hinv' : ∀ d ∈ info.deps, ∀ v ∈ name :: visited,
          Relation.TransGen (depEdge bs) v d := by
        intro d hd v hv
        rcases List.mem_cons.mp hv with rfl | hv'
        · exact Relation.TransGen.single ⟨info, hlk, hd⟩
        · exact (hinv v hv').tail ⟨info, hlk, hd⟩
      have hdeps : ∀ (deps : List Str) (fs' : FS),
          (∀ d ∈ deps, ∀ v ∈ name :: visited, Relation.TransGen (depEdge bs) v d) →
          ∀ y, (buildDeps (buildF env bs gas) deps (name :: visited) fs').err ≠
            some (.circularDependency y) := by
        intro deps
        induction deps with
        | nil => intro fs' _ y; simp [buildDeps]
        | cons d rest ihd =>
          intro fs' hd y
          simp only [buildDeps]
          have h1 := ih d (name :: visited) fs' (hd d (List.mem_cons_self d rest))
          cases herr : (buildF env bs gas d (name :: visited) fs').err with
          | some e => exact h1 y
          | none =>
            exact ihd _ (fun d' hd' => hd d' (List.mem_cons_of_mem d hd')) y
      cases hbd : (buildDeps (buildF env bs gas) info.deps (name :: visited) fs).err with
      | some e => exact hdeps info.deps fs hinv' x
      | none =>
        by_cases hnr : needs_rebuild bs
            (buildDeps (buildF env bs gas) info.deps (name :: visited) fs).fs name info.deps
        · rw [if_pos hnr]
          exact runCommands_err_not_circular env bs.vars info.commands _ x
        · rw [if_neg hnr]
          simp

/-- C4: if the dependency relation among known targets is acyclic, a
top-level `build` never fails with `circularDependency`: only a name on
the current ancestor path can collide, and sibling subtrees (diamonds)
never falsely detect a cycle against each other. -/
theorem claim4_acyclic_no_circular (env : Env) (bs : BuildSystem) (goal : Str)
    (fs : FS) (x : Str) (acyc : ∀ n, ¬ Relation.TransGen (depEdge bs) n n) :
    (build env bs goal fs).err ≠ some (.circularDependency x) :=
  buildF_not_circular env bs acyc _ goal [] fs (by simp) x

/-- Acyclicity follows from a rank function strictly decreasing along
dependency edges. -/
theorem no_cycle_of_rank {R : Str → Str → Prop} (rank : Str → Nat)
    (h : ∀ a b, R a b → rank b < rank a) : ∀ n, ¬ Relation.TransGen R n n := by
  intro n hn
  have key : ∀ x y, Relation.TransGen R x y → rank y < rank x := by
    intro x y hxy
    induction hxy with
    | single h1 => exact h _ _ h1
    | tail _ h1 ihr => exact Nat.lt_trans (h _ _ h1) ihr
  exact Nat.lt_irrefl _ (key n n hn)

/-- Model of the diamond buildfile `a: b c` / `b: d` / `c: d` / `d:`. -/
def bsDiamond : BuildSystem :=
  ⟨[], [(lit "a", ⟨[lit "b", lit "c"], [], [], lit "General"⟩),
        (lit "b", ⟨[lit "d"], [], [], lit "General"⟩),
        (lit "c", ⟨[lit "d"], [], [], lit "General"⟩),
        (lit "d", ⟨[], [lit "touch d"], [], lit "General"⟩)], some (lit "a")⟩

/-- Rank function witnessing that `bsDiamond` is acyclic. -/
def rankDiamond (s : Str) : Nat :=
  if s = lit "a" then 3 else if s = lit "b" then 2 else if s = lit "c" then 2
  else if s = lit "d" then 1 else 0

/-- C4 witness: the diamond model (shared dependency `d` reached twice)
builds without any circular-dependency report. -/
theorem claim4_witness :
    (build envId bsDiamond (lit "a") fsEmpty).err ≠
      some (.circularDependency (lit "a")) :=
  claim4_acyclic_no_circular envId bsDiamond (lit "a") fsEmpty (lit "a")
    (no_cycle_of_rank rankDiamond (by
      rintro a b ⟨info, hlk, hb⟩
      have hm := lookupKey_mem _ _ _ hlk
      simp only [bsDiamond, List.mem_cons, List.not_mem_nil, or_false, Prod.mk.injEq] at hm
      rcases hm with ⟨rfl, rfl⟩ | ⟨rfl, rfl⟩ | ⟨rfl, rfl⟩ | ⟨rfl, rfl⟩ <;>
        simp only [List.mem_cons, List.not_mem_nil, or_false] at hb <;>
        rcases hb with rfl | rfl <;> decide))

/-! ## Claim C6: an up-to-date target builds with zero commands -/

theorem rebuildLoop_eq_false_of_fresh (bs : BuildSystem) (fs : FS) (tm : Nat) :
    ∀ deps : List Str, (∀ d ∈ deps, fs.fexists d = true ∧ fs.mtime d ≤ tm) →
      rebuildLoop bs fs tm deps = false := by
  intro deps
  induction deps with
  | nil => intro _; rfl
  | cons d rest ih =>
    intro h
    have hd := h d (List.mem_cons_self d rest)
    simp only [rebuildLoop, mtimeCheck, hd.1, if_true]
    rw [if_neg (Nat.not_lt.mpr hd.2)]
    exact ih (fun d' h' => h d' (List.mem_cons_of_mem d h'))

/-- On a filesystem where every name reachable from the goal exists and no
dependency is newer than its dependent, the executor changes nothing and
runs nothing, at any fuel and along any visited path. -/
theorem buildF_fresh (env : Env) (bs : BuildSystem) (fs : FS) (goal : Str)
    (hex : ∀ n, Relation.ReflTransGen (depEdge bs) goal n → fs.fexists n = true)
    (hmt : ∀ n info d, Relation.ReflTransGen (depEdge bs) goal n →
      lookupKey bs.targets n = some info → d ∈ info.deps → fs.mtime d ≤ fs.mtime n) :
    ∀ (gas : Nat) (name : Str) (visited : List Str),
      Relation.ReflTransGen (depEdge bs) goal name →
      (buildF env bs gas name visited fs).fs = fs ∧
        (buildF env bs gas name visited fs).log = [] := by
  intro gas
  induction gas with
  | zero => intro name visited _; exact ⟨rfl, rfl⟩
  | succ gas ih =>
    intro name visited hreach
    simp only [buildF]
    by_cases hmem : name ∈ visited
    · rw [if_pos hmem]; exact ⟨rfl, rfl⟩
    · rw [if_neg hmem]
      cases hlk : lookupKey bs.targets name with
      | none => cases hfe : fs.fexists name <;> simp
      | some info =>
        dsimp only
        have hreach' : ∀ d ∈ info.deps, Relation.ReflTransGen (depEdge bs) goal d :=
          fun d hd => hreach.tail ⟨info, hlk, hd⟩
        have hdeps : ∀ deps : List Str,
            (∀ d ∈ deps, Relation.ReflTransGen (depEdge bs) goal d) →
            (buildDeps (buildF env bs gas) deps (name :: visited) fs).fs = fs ∧
              (buildDeps (buildF env bs gas) deps (name :: visited) fs).log = [] := by
          intro deps
          induction deps with
          | nil => intro _; exact ⟨rfl, rfl⟩
          | cons d rest ihd =>
            intro hall
            simp only [buildDeps]
            have h1 := ih d (name :: visited) (hall d (List.mem_cons_self d rest))
            cases herr : (buildF env bs gas d (name :: visited) fs).err with
            | some e => exact h1
            | none =>
              rw [h1.1]
              have h2 := ihd (fun d' h' => hall d' (List.mem_cons_of_mem d h'))
              exact ⟨h2.1, by rw [h1.2, h2.2]; rfl⟩
        have hbd := hdeps info.deps hreach'
        cases hbdE : (buildDeps (buildF env bs gas) info.deps (name :: visited) fs).err with
        | some e => exact hbd
        | none =>
          rw [hbd.1]
          have hnr : needs_rebuild bs fs name info.deps = false := by
            unfold needs_rebuild
            rw [hex name hreach, if_pos rfl]
            exact rebuildLoop_eq_false_of_fresh bs fs (fs.mtime name) info.deps
              (fun d hd => ⟨hex d (hreach' d hd), hmt name info d hreach hlk hd⟩)
          rw [hnr]
          simp [hbd.1, hbd.2]

/-- C6: when the goal's file and the files of everything reachable through
its dependencies exist, and no dependency is strictly newer than its
dependent, a top-level `build` executes zero shell commands and leaves
the filesystem unchanged. -/
theorem claim6_up_to_date_noop (env : Env) (bs : BuildSystem) (fs : FS) (goal : Str)
    (hex : ∀ n, Relation.ReflTransGen (depEdge bs) goal n → fs.fexists n = true)
    (hmt : ∀ n info d, Relation.ReflTransGen (depEdge bs) goal n →
      lookupKey bs.targets n = some info → d ∈ info.deps → fs.mtime d ≤ fs.mtime n) :
    (build env bs goal fs).log = [] ∧ (build env bs goal fs).fs = fs :=
  have h := buildF_fresh env bs fs goal hex hmt (bs.targets.length + 1) goal []
    Relation.ReflTransGen.refl
  ⟨h.2, h.1⟩

/-- A filesystem on which every name exists with modification time 0. -/
def fsAll : FS := ⟨fun _ => true, fun _ => 0⟩

/-- C6 witness: rebuilding the fully up-to-date diamond runs nothing and
changes nothing. -/
theorem claim6_witness :
    (build envId bsDiamond (lit "a") fsAll).log = [] ∧
      (build envId bsDiamond (lit "a") fsAll).fs = fsAll :=
  claim6_up_to_date_noop envId bsDiamond fsAll (lit "a")
    (fun _ _ => rfl) (fun _ _ _ _ _ _ => Nat.le_refl 0)

/-! ## Claim C5: commands run in order, stopping at the first failure -/

/-- Characterization of the command phase: either every command succeeds
and the log is the expansion of the whole list in order, or some `i`-th
command is the first to fail, the error is `commandFailed` with that
command's expanded text, and the log is exactly the expansions of the
commands up to and including position `i` — none after it ran. -/
theorem runCommands_cases (env : Env) (vars : List (Str × Str)) :
    ∀ (cmds : List Str) (fs : FS),
      ((runCommands env vars fs cmds).err = none ∧
        (runCommands env vars fs cmds).log = cmds.map (expand_vars vars)) ∨
      (∃ i, ∃ h : i < cmds.length,
        (runCommands env vars fs cmds).err =
          some (.commandFailed (expand_vars vars (cmds.get ⟨i, h⟩))) ∧
        (runCommands env vars fs cmds).log =
          (cmds.take (i + 1)).map (expand_vars vars)) := by
  intro cmds
  induction cmds with
  | nil => intro fs; left; exact ⟨rfl, rfl⟩
  | cons cmd rest ih =>
    intro fs
    simp only [runCommands]
    by_cases h0 : (env.run (expand_vars vars cmd) fs).1 = 0
    · rw [if_pos h0]
      rcases ih (env.run (expand_vars vars cmd) fs).2 with ⟨he, hl⟩ | ⟨i, hi, he, hl⟩
      · left
        exact ⟨he, by show expand_vars vars cmd :: _ = _; rw [hl]; rfl⟩
      · right
        exact ⟨i + 1, Nat.succ_lt_succ hi, he,
          by show expand_vars vars cmd :: _ = _; rw [hl]; rfl⟩
    · rw [if_neg h0]
      right
      exact ⟨0, Nat.succ_pos _, rfl, rfl⟩

/-- C5: when a looked-up target's dependency phase finishes without error
and the staleness check demands a rebuild, the top-level build executes
the target's commands, expanded, strictly in listed order; either all
succeed, or the build aborts with `commandFailed` naming the expanded
text of the first failing command, with no later command of the target
executed. -/
theorem claim5_commands_in_order (env : Env) (bs : BuildSystem) (fs : FS) (name : Str)
    (info : Target) (r : BResult)
    (hl : lookupKey bs.targets name = some info)
    (hd : buildDeps (buildF env bs bs.targets.length) info.deps [name] fs = r)
    (he : r.err = none)
    (hn : needs_rebuild bs r.fs name info.deps = true) :
    ((build env bs name fs).err = none ∧
      (build env bs name fs).log = r.log ++ info.commands.map (expand_vars bs.vars)) ∨
    (∃ i, ∃ h : i < info.commands.length,
      (build env bs name fs).err =
        some (.commandFailed (expand_vars bs.vars (info.commands.get ⟨i, h⟩))) ∧
      (build env bs name fs).log =
        r.log ++ (info.commands.take (i + 1)).map (expand_vars bs.vars)) := by
  have hbuild : build env bs name fs =
      ⟨(runCommands env bs.vars r.fs info.commands).fs,
        r.log ++ (runCommands env bs.vars r.fs info.commands).log,
        (runCommands env bs.vars r.fs info.commands).err⟩ := by
    show buildF env bs (bs.targets.length + 1) name [] fs = _
    simp only [buildF]
    rw [if_neg (List.not_mem_nil name), hl]
    dsimp only
    rw [hd, he]
    dsimp only
    rw [hn]
    rfl
  rw [hbuild]
  rcases runCommands_cases env bs.vars info.commands r.fs with ⟨he2, hl2⟩ | ⟨i, hi, he2, hl2⟩
  · left; exact ⟨he2, by rw [hl2]⟩
  · right; exact ⟨i, hi, he2, by rw [hl2]⟩

/-- A target with no dependencies and two commands. -/
def tgtTwoCmds : Target := ⟨[], [lit "c1", lit "c2"], [], lit "General"⟩

/-- A model with the single target `a` carrying two commands. -/
def bsTwoCmds : BuildSystem := ⟨[], [(lit "a", tgtTwoCmds)], some (lit "a")⟩

/-- A shell in which exactly the command `c2` fails. -/
def envFailC2 : Env := ⟨fun c f => (if c = lit "c2" then 1 else 0, f)⟩

/-- C5 witness: building `a` against a shell that rejects `c2` yields the
in-order / first-failure disjunction at concrete inputs. -/
theorem claim5_witness :
    ((build envFailC2 bsTwoCmds (lit "a") fsEmpty).err = none ∧
      (build envFailC2 bsTwoCmds (lit "a") fsEmpty).log =
        (⟨fsEmpty, [], none⟩ : BResult).log ++
          tgtTwoCmds.commands.map (expand_vars bsTwoCmds.vars)) ∨
    (∃ i, ∃ h : i < tgtTwoCmds.commands.length,
      (build envFailC2 bsTwoCmds (lit "a") fsEmpty).err =
        some (.commandFailed (expand_vars bsTwoCmds.vars (tgtTwoCmds.commands.get ⟨i, h⟩))) ∧
      (build envFailC2 bsTwoCmds (lit "a") fsEmpty).log =
        (⟨fsEmpty, [], none⟩ : BResult).log ++
          (tgtTwoCmds.commands.take (i + 1)).map (expand_vars bsTwoCmds.vars)) :=
  claim5_commands_in_order envFailC2 bsTwoCmds fsEmpty (lit "a") tgtTwoCmds
    ⟨fsEmpty, [], none⟩ (by decide) rfl rfl (by decide)

/-! ## Claim C9: malformed lines -/

instance {ε α : Type} [DecidableEq ε] [DecidableEq α] : DecidableEq (Except ε α) := fun a b =>
  match a, b with
  | .error e, .error e' =>
    if h : e = e' then .isTrue (by rw [h]) else .isFalse (fun hc => h (Except.error.inj hc))
  | .error _, .ok _ => .isFalse (fun hc => Except.noConfusion hc)
  | .ok _, .error _ => .isFalse (fun hc => Except.noConfusion hc)
  | .ok v, .ok v' =>
    if h : v = v' then .isTrue (by rw [h]) else .isFalse (fun hc => h (Except.ok.inj hc))

/-- A line matching none of the recognised forms: non-blank, not a
comment, not indented, not a group header, and containing neither `=`
nor `:` (so neither the assignment nor the target branch applies). -/
def isMalformed (line : Str) : Bool :=
  let s := strip line
  !isGroupLine s && !s.isEmpty && !(s.head? == some '#') && !isIndented line &&
    !s.contains '=' && !s.contains ':'

/-- A malformed line makes `parseLine` fail with `synErr` at its line
number, whatever the current state. -/
theorem parseLine_malformed (st : PState) (n : Nat) (line : Str)
    (h : isMalformed line = true) : parseLine st n line = .error (.synErr n) := by
  simp only [isMalformed, Bool.and_eq_true, Bool.not_eq_true'] at h
  obtain ⟨⟨⟨⟨⟨hg, hb⟩, hc⟩, hi⟩, heq⟩, hco⟩ := h
  simp only [parseLine, hg, hb, hc, hi, heq, hco, Bool.false_eq_true, if_false,
    Bool.false_and]

/-- `parseLines` over an appended list: either the prefix fails, or the
suffix continues from the prefix's final state and advanced line number. -/
theorem parseLines_append (rest : List Str) :
    ∀ (pre : List Str) (st : PState) (n : Nat),
      parseLines st n (pre ++ rest) =
        match parseLines st n pre with
        | .error e => .error e
        | .ok st' => parseLines st' (n + pre.length) rest := by
  intro pre
  induction pre with
  | nil => intro st n; simp [parseLines]
  | cons l pre' ih =>
    intro st n
    show parseLines st n (l :: (pre' ++ rest)) = _
    simp only [parseLines]
    cases parseLine st n l with
    | error e => rfl
    | ok st1 =>
      dsimp only
      rw [ih st1 (n + 1)]
      have harith : n + 1 + pre'.length = n + (pre'.length + 1) := by omega
      rw [List.length_cons, harith]

/-- C9 (amended): if every line before the malformed one parses without
error, `parse` fails with `synErr` citing the malformed line's number
(and returns no model); an earlier erroneous line instead fails first
with its own kind and number, as the counterexample shows. -/
theorem claim9_malformed_line (pre post : List Str) (l : Str) (st : PState)
    (hpre : parseLines initPS 1 pre = .ok st) (hml : isMalformed l = true) :
    parse (pre ++ l :: post) = .error (.synErr (pre.length + 1)) := by
  unfold parse
  rw [parseLines_append (l :: post) pre initPS 1, hpre]
  show (match parseLines st (1 + pre.length) (l :: post) with
        | .error e => (.error e : Except BuildError BuildSystem)
        | .ok st' => .ok ⟨st'.vars, st'.targets, st'.firstTarget⟩) = _
  simp only [parseLines]
  rw [parseLine_malformed st (1 + pre.length) l hml]
  rw [Nat.add_comm 1 pre.length]

/-- C9 counterexample: the buildfile `"\tx"` / `"foo"` contains the
malformed line `foo` (line 2), yet parsing fails with `orphanCmd` at
line 1, not with `synErr` at line 2. -/
theorem claim9_counterexample :
    parse [lit "\tx", lit "foo"] = .error (.orphanCmd 1) ∧
      isMalformed (lit "foo") = true ∧
      (Except.error (.orphanCmd 1) : Except BuildError BuildSystem) ≠
        .error (.synErr 2) := by decide

/-- C9 witness: after the well-formed line `x: y`, the malformed line
`foo` is reported as a syntax error at line 2. -/
theorem claim9_witness :
    parse [lit "x: y", lit "foo"] = .error (.synErr 2) :=
  claim9_malformed_line [lit "x: y"] [] (lit "foo")
    { vars := [], targets := [(lit "x", ⟨[lit "y"], [], [], lit "General"⟩)],
      firstTarget := some (lit "x"), currentTarget := some (lit "x"),
      currentGroup := lit "General", pendingDoc := [] }
    (by decide) (by decide)

/-! ## Claim C10: parsed commands are trimmed, non-blank, non-comment -/

theorem strip_as_rdrop (s : Str) :
    strip s = List.rdropWhile isWsChar (s.dropWhile isWsChar) := rfl

theorem strip_idem (s : Str) : strip (strip s) = strip s := by
  rw [strip_as_rdrop, strip_as_rdrop]
  have h1 : List.dropWhile isWsChar (List.rdropWhile isWsChar (s.dropWhile isWsChar)) =
      List.rdropWhile isWsChar (s.dropWhile isWsChar) := by
    rcases hp : List.rdropWhile isWsChar (s.dropWhile isWsChar) with _ | ⟨c, t⟩
    · rfl
    · have hpre := List.rdropWhile_prefix isWsChar (s.dropWhile isWsChar)
      rw [hp] at hpre
      rcases hpre with ⟨rest, hrest⟩
      have hidem : List.dropWhile isWsChar (s.dropWhile isWsChar) = s.dropWhile isWsChar :=
        List.dropWhile_idempotent isWsChar s
      have hws : ¬ isWsChar c = true := by
        intro hc
        rw [← hrest, List.cons_append, List.dropWhile_cons_of_pos hc] at hidem
        have hlen := congrArg List.length hidem
        have hle := (List.dropWhile_sublist (l := t ++ rest) isWsChar).length_le
        simp only [List.length_cons] at hlen
        omega
      rw [List.dropWhile_cons_of_neg hws]
  rw [h1, List.rdropWhile_idempotent]

/-- The invariant carried through parsing: every command of every target
entry is non-empty, fixed by `strip`, and does not start with `#`. -/
def targetsOK (ts : List (Str × Target)) : Prop :=
  ∀ e ∈ ts, ∀ c ∈ e.2.commands, c ≠ [] ∧ strip c = c ∧ c.head? ≠ some '#'

theorem targetsOK_appendCmd (name cmd : Str)
    (hc : cmd ≠ [] ∧ strip cmd = cmd ∧ cmd.head? ≠ some '#') :
    ∀ ts, targetsOK ts → targetsOK (appendCmd ts name cmd) := by
  intro ts
  induction ts with
  | nil => intro _ e he; exact absurd he (List.not_mem_nil e)
  | cons p rest ih =>
    obtain ⟨k, t⟩ := p
    intro h e he
    simp only [appendCmd] at he
    by_cases hk : k = name
    · rw [if_pos hk] at he
      rcases List.mem_cons.mp he with rfl | hmem
      · intro c hcm
        rcases List.mem_append.mp hcm with hold | hnew
        · exact h (k, t) (List.mem_cons_self _ _) c hold
        · rw [List.mem_singleton.mp hnew]; exact hc
      · exact h e (List.mem_cons_of_mem _ hmem)
    · rw [if_neg hk] at he
      rcases List.mem_cons.mp he with rfl | hmem
      · exact h (k, t) (List.mem_cons_self _ _)
      · exact ih (fun e' he' => h e' (List.mem_cons_of_mem _ he')) e hmem

theorem targetsOK_setKey (name : Str) (t : Target)
    (ht : ∀ c ∈ t.commands, c ≠ [] ∧ strip c = c ∧ c.head? ≠ some '#') :
    ∀ ts, targetsOK ts → targetsOK (setKey ts name t) := by
  intro ts
  induction ts with
  | nil =>
    intro _ e he
    rw [List.mem_singleton.mp he]
    exact ht
  | cons p rest ih =>
    obtain ⟨k, v⟩ := p
    intro h e he
    simp only [setKey] at he
    by_cases hk : k = name
    · rw [if_pos hk] at he
      rcases List.mem_cons.mp he with rfl | hmem
      · exact ht
      · exact h e (List.mem_cons_of_mem _ hmem)
    · rw [if_neg hk] at he
      rcases List.mem_cons.mp he with rfl | hmem
      · exact h (k, v) (List.mem_cons_self _ _)
      · exact ih (fun e' he' => h e' (List.mem_cons_of_mem _ he')) e hmem

theorem parseLine_targetsOK (st : PState) (n : Nat) (line : Str) (st' : PState)
    (hst : targetsOK st.targets) (h : parseLine st n line = .ok st') :
    targetsOK st'.targets := by
  unfold parseLine at h
  by_cases h1 : isGroupLine (strip line) = true
  · rw [if_pos h1] at h; cases h; exact hst
  · rw [if_neg h1] at h
    by_cases h2 : (strip line).isEmpty = true
    · rw [if_pos h2] at h; cases h; split <;> exact hst
    · rw [if_neg h2] at h
      by_cases h3 : ((strip line).head? == some '#') = true
      · rw [if_pos h3] at h; cases h; split <;> exact hst
      · rw [if_neg h3] at h
        by_cases h4 : isIndented line = true
        · rw [if_pos h4] at h
          by_cases h5 : pyTruthy st.currentTarget = true
          · rw [if_pos h5] at h; cases h
            apply targetsOK_appendCmd _ _ ?_ st.targets hst
            refine ⟨?_, strip_idem line, ?_⟩
            · intro hnil
              apply h2
              rw [hnil]
              rfl
            · intro hhash
              apply h3
              rw [hhash]
              rfl
          · rw [if_neg h5] at h; exact Except.noConfusion h
        · rw [if_neg h4] at h
          by_cases h6 : ((strip line).contains '=' && !(strip line).contains ':') = true
          · rw [if_pos h6] at h; cases h; exact hst
          · rw [if_neg h6] at h
            by_cases h7 : (strip line).contains ':' = true
            · rw [if_pos h7] at h; cases h
              exact targetsOK_setKey _ _ (fun c hc => absurd hc (List.not_mem_nil c))
                st.targets hst
            · rw [if_neg h7] at h; exact Except.noConfusion h

theorem parseLines_targetsOK :
    ∀ (lines : List Str) (st : PState) (n : Nat) (st' : PState),
      targetsOK st.targets → parseLines st n lines = .ok st' → targetsOK st'.targets := by
  intro lines
  induction lines with
  | nil =>
    intro st n st' hst h
    cases h
    exact hst
  | cons l rest ih =>
    intro st n st' hst h
    simp only [parseLines] at h
    cases hpl : parseLine st n l with
    | error e => rw [hpl] at h; exact Except.noConfusion h
    | ok st1 =>
      rw [hpl] at h
      exact ih st1 (n + 1) st' (parseLine_targetsOK st n l st1 hst hpl) h

/-- C10: in any model accepted by `parse`, every command string of every
target is non-empty, fixed by `strip` (no leading or trailing
whitespace), and does not start with `#`: blank and comment lines, even
indented ones, are classified before the indentation rule and never
become commands. -/
theorem claim10_commands_clean (lines : List Str) (m : BuildSystem)
    (hp : parse lines = .ok m) (name : Str) (info : Target)
    (hlk : lookupKey m.targets name = some info) :
    ∀ c ∈ info.commands, c ≠ [] ∧ strip c = c ∧ c.head? ≠ some '#' := by
  unfold parse at hp
  cases hps : parseLines initPS 1 lines with
  | error e => rw [hps] at hp; exact Except.noConfusion hp
  | ok st =>
    rw [hps] at hp
    cases hp
    have h0 : targetsOK initPS.targets := fun e he => absurd he (List.not_mem_nil e)
    have hok := parseLines_targetsOK lines initPS 1 st h0 hps
    exact hok (name, info) (lookupKey_mem _ _ _ hlk)

/-- C10 witness: the buildfile `a: b` with one indented command; the
parsed command `gcc -c b` is clean. -/
theorem claim10_witness :
    lit "gcc -c b" ≠ [] ∧ strip (lit "gcc -c b") = lit "gcc -c b" ∧
      (lit "gcc -c b").head? ≠ some '#' :=
  claim10_commands_clean [lit "a: b", lit "\tgcc -c b"]
    ⟨[], [(lit "a", ⟨[lit "b"], [lit "gcc -c b"], [], lit "General"⟩)], some (lit "a")⟩
    (by decide) (lit "a") ⟨[lit "b"], [lit "gcc -c b"], [], lit "General"⟩
    (by decide) (lit "gcc -c b") (by decide)

end Makeover
